import Mathlib

/-!
Verification of the XML sanitizer of the Drawio-Quick-Launcher extension
(`sanitizeXml` in `background.js`).

The sanitizer is a single-pass finite-state transducer over the input
string.  We embed it shallowly: JavaScript strings become `List Char`,
the index-based loop becomes structural recursion over the remaining
suffix of the input (JavaScript's `xml[i+1]` is the head of the tail,
`xml.indexOf(';', i+1)` is a scan over the tail, `xml.startsWith(p, i)`
is `List.isPrefixOf` on the suffix), and the output accumulator `result`
is threaded explicitly because the COMMENT/CDATA closing test inspects
it (`result.endsWith('-->')`).
-/

namespace DrawioSanitizer

/-- JavaScript's `/\s/` whitespace class (the code units matched by `\s`
without flags). -/
def jsWhitespace (c : Char) : Bool :=
  c = ' ' || c = '\t' || c = '\n' || c = '\r' || c = '\x0b' || c = '\x0c' ||
  c = '\u00A0' || c = '\u1680' || ('\u2000' ≤ c && c ≤ '\u200A') ||
  c = '\u2028' || c = '\u2029' || c = '\u202F' || c = '\u205F' ||
  c = '\u3000' || c = '\uFEFF'

/-- `[a-zA-Z]` -/
def isAsciiLetter (c : Char) : Bool :=
  ('a' ≤ c && c ≤ 'z') || ('A' ≤ c && c ≤ 'Z')

/-- `[0-9]` (JavaScript `\d`) -/
def isAsciiDigit (c : Char) : Bool :=
  '0' ≤ c && c ≤ '9'

/-- `[0-9A-Fa-f]` -/
def isHexDigit (c : Char) : Bool :=
  isAsciiDigit c || ('a' ≤ c && c ≤ 'f') || ('A' ≤ c && c ≤ 'F')

/-- `[a-zA-Z0-9]` -/
def isAsciiAlphanum (c : Char) : Bool :=
  isAsciiLetter c || isAsciiDigit c

/-- The loose tag-start test of the TEXT state:
`/[a-zA-Z0-9_:\/\?!]/.test(nextChar)`. -/
def isTagStartChar (c : Char) : Bool :=
  isAsciiAlphanum c || c = '_' || c = ':' || c = '/' || c = '?' || c = '!'

/-- `/^#x[0-9A-Fa-f]+$/.test(entityBody)`: a hexadecimal numeric
character reference body. -/
def testHexRef : List Char → Bool
  | '#' :: 'x' :: rest => !rest.isEmpty && rest.all isHexDigit
  | _ => false

/-- `/^#\d+$/.test(entityBody)`: a decimal numeric character reference
body. -/
def testDecRef : List Char → Bool
  | '#' :: rest => !rest.isEmpty && rest.all isAsciiDigit
  | _ => false

/-- `/^[a-zA-Z][a-zA-Z0-9]+$/.test(entityBody)`: a named reference body
(a letter followed by one or more letters/digits, so total length at
least 2). -/
def testNamedRef : List Char → Bool
  | c :: rest => isAsciiLetter c && !rest.isEmpty && rest.all isAsciiAlphanum
  | [] => false

/-- The classification of the text between `&` and the first following
`;` inside `isPreEscapedEntity`: `if (!entityBody) return false;` then
the disjunction of the three regular-expression tests. -/
def entityBodyValid (body : List Char) : Bool :=
  !body.isEmpty && (testHexRef body || testDecRef body || testNamedRef body)

/-- `isPreEscapedEntity(source, index)` where `source[index] = '&'` and
`afterAmp` is the suffix of the source starting at `index + 1`:
`source.indexOf(';', index+1)` finds the first `;` in `afterAmp` (if
none, the test fails) and `source.slice(index+1, semi)` is the prefix of
`afterAmp` before that `;`. -/
def isPreEscapedEntity (afterAmp : List Char) : Bool :=
  afterAmp.contains ';' && entityBodyValid (afterAmp.takeWhile (fun c => c ≠ ';'))

/-- `isAttributeTerminator(nextChar)`, where
`nextChar = i + 1 < len ? xml[i+1] : ''` is modelled as `Option Char`
(`none` = past end of input, which JavaScript reports as `''` and the
test accepts via `nextChar === ''`). -/
def isAttributeTerminator (nextChar : Option Char) : Bool :=
  match nextChar with
  | none => true
  | some c => c = '>' || c = '/' || c = '?' || jsWhitespace c

/-- The eight states of the sanitizer (the numeric constants
`STATE_TEXT = 0`, ..., `STATE_CDATA = 7`).  As in the source,
`ATTR_VALUE_DQ` is entered on `"` and `ATTR_VALUE_Q` on `'`. -/
inductive XState where
  | TEXT
  | TAG_OPEN
  | TAG_NAME
  | ATTR_NAME
  | ATTR_VALUE_DQ
  | ATTR_VALUE_Q
  | COMMENT
  | CDATA
deriving DecidableEq, Repr

open XState

/-- One iteration of the `while (i < len)` loop of `sanitizeXml`:
given the current state, the `result` accumulated so far (inspected only
by the COMMENT/CDATA closing test `result.endsWith(...)`), the current
character `char = xml[i]` and the following suffix `tail = xml[i+1..]`,
return the next state, the text appended to `result`, and how many extra
code units beyond `char` are consumed (`8` for the `<![CDATA[` opener's
`i += 9`, `3` for the `<!--` opener's `i += 4`, `0` everywhere else).
Each branch mirrors one branch of the JavaScript `if`/`else if` chain. -/
def sanitizeStep (state : XState) (acc : List Char) (char : Char) (tail : List Char) :
    XState × List Char × Nat :=
  match state with
  | TEXT =>
    if char = '<' then
      if ("![CDATA[".toList).isPrefixOf tail then
        (CDATA, "<![CDATA[".toList, 8)
      else if ("!--".toList).isPrefixOf tail then
        (COMMENT, "<!--".toList, 3)
      else
        match tail.head? with
        | some n =>
          if isTagStartChar n then (TAG_OPEN, ['<'], 0)
          else (TEXT, "&lt;".toList, 0)
        | none => (TEXT, "&lt;".toList, 0)
    else if char = '&' then
      (TEXT, (if isPreEscapedEntity tail then ['&'] else "&amp;".toList), 0)
    else if char = '>' then
      (TEXT, "&gt;".toList, 0)
    else
      (TEXT, [char], 0)
  | TAG_OPEN =>
    if jsWhitespace char then (TAG_NAME, [char], 0)
    else if char = '>' then (TEXT, [char], 0)
    else (TAG_NAME, [char], 0)
  | TAG_NAME =>
    if jsWhitespace char then (ATTR_NAME, [char], 0)
    else if char = '>' then (TEXT, [char], 0)
    else (TAG_NAME, [char], 0)
  | ATTR_NAME =>
    if char = '"' then (ATTR_VALUE_DQ, [char], 0)
    else if char = '\'' then (ATTR_VALUE_Q, [char], 0)
    else if char = '>' then (TEXT, [char], 0)
    else (ATTR_NAME, [char], 0)
  | ATTR_VALUE_DQ =>
    if char = '"' then
      if isAttributeTerminator tail.head? then (ATTR_NAME, [char], 0)
      else (ATTR_VALUE_DQ, "&quot;".toList, 0)
    else if char = '&' then
      (ATTR_VALUE_DQ, (if isPreEscapedEntity tail then ['&'] else "&amp;".toList), 0)
    else if char = '<' then (ATTR_VALUE_DQ, "&lt;".toList, 0)
    else if char = '>' then (ATTR_VALUE_DQ, "&gt;".toList, 0)
    else (ATTR_VALUE_DQ, [char], 0)
  | ATTR_VALUE_Q =>
    if char = '\'' then
      if isAttributeTerminator tail.head? then (ATTR_NAME, [char], 0)
      else (ATTR_VALUE_Q, "&apos;".toList, 0)
    else if char = '&' then
      (ATTR_VALUE_Q, (if isPreEscapedEntity tail then ['&'] else "&amp;".toList), 0)
    else if char = '<' then (ATTR_VALUE_Q, "&lt;".toList, 0)
    else if char = '>' then (ATTR_VALUE_Q, "&gt;".toList, 0)
    else (ATTR_VALUE_Q, [char], 0)
  | COMMENT =>
    if char = '>' && ("-->".toList).isSuffixOf (acc ++ [char]) then (TEXT, [char], 0)
    else (COMMENT, [char], 0)
  | CDATA =>
    if char = '>' && ("]]>".toList).isSuffixOf (acc ++ [char]) then (TEXT, [char], 0)
    else (CDATA, [char], 0)

/-- The `while (i < len)` loop of `sanitizeXml`: `acc` is `result` so
far, `rest` the unread suffix `xml[i..]`.  Each iteration applies
`sanitizeStep` to the current character and advances the cursor past it
(plus the step's extra consumption). -/
def sanitizeLoop (state : XState) (acc : List Char) (rest : List Char) : List Char :=
  match rest with
  | [] => acc
  | char :: tail =>
    sanitizeLoop (sanitizeStep state acc char tail).1
      (acc ++ (sanitizeStep state acc char tail).2.1)
      (tail.drop (sanitizeStep state acc char tail).2.2)
termination_by rest.length
decreasing_by simp [List.length_drop]; omega

/-- `sanitizeXml(xml)`: run the loop from `STATE_TEXT` with an empty
`result`. -/
def sanitizeXml (xml : String) : String :=
  ⟨sanitizeLoop TEXT [] xml.data⟩

/-- The three entity-body shapes named by the specification: a numeric
character reference in hexadecimal form (`#x` followed by one or more
hex digits), a numeric character reference in decimal form (`#` followed
by one or more digits), or a named reference (a letter followed by one
or more letters/digits, total length at least 2).  Written from the
specification text, independently of the code's tests. -/
def specEntityBody (body : List Char) : Prop :=
  (∃ ds, body = '#' :: 'x' :: ds ∧ ds ≠ [] ∧ ∀ c ∈ ds, isHexDigit c = true) ∨
  (∃ ds, body = '#' :: ds ∧ ds ≠ [] ∧ ∀ c ∈ ds, isAsciiDigit c = true) ∨
  (∃ c cs, body = c :: cs ∧ isAsciiLetter c = true ∧ cs ≠ [] ∧
    ∀ d ∈ cs, isAsciiAlphanum d = true)

/-! ### Claim C5: a grammar of already-sanitized text

The claim quantifies over "any text `t` containing only valid
XML-escaped entities and well-formed tags".  The following grammar
formalizes that class from the specification's description: a document
is a sequence of plain text characters, entity references, and tags
whose attribute values again consist of plain characters and entity
references, with every closing quote followed by an attribute
terminator (the next attribute's space or the tag close). -/

/-- One piece of an attribute value: a plain character or an
already-escaped entity reference `&body;`. -/
inductive VPiece where
  | vchar (c : Char)
  | vent (body : List Char)

def renderVPiece : VPiece → List Char
  | .vchar c => [c]
  | .vent body => '&' :: body ++ [';']

/-- The quote character of a quote style (`true` = double). -/
def quoteChar (dq : Bool) : Char := if dq then '"' else '\''

/-- An attribute: `pre` is the attribute name together with `=`, `dq`
the quote style, `value` the quoted pieces.  Rendered as
`␣pre"value"` resp. `␣pre'value'`. -/
structure XAttr where
  pre : List Char
  dq : Bool
  value : List VPiece

def renderAttr (a : XAttr) : List Char :=
  ' ' :: (a.pre ++ quoteChar a.dq :: ((a.value.map renderVPiece).flatten ++ [quoteChar a.dq]))

/-- A tag `<name attrs...>` or `<name attrs.../>`; closing tags are
names beginning with `/`, processing instructions names beginning with
`?`. -/
structure XTag where
  name : List Char
  attrs : List XAttr
  selfClose : Bool

def closeList (sc : Bool) : List Char := if sc then ['/', '>'] else ['>']

def renderTag (t : XTag) : List Char :=
  '<' :: (t.name ++ ((t.attrs.map renderAttr).flatten ++ closeList t.selfClose))

/-- A document item: plain text character, entity reference, or tag. -/
inductive XItem where
  | text (c : Char)
  | ent (body : List Char)
  | tag (t : XTag)

def renderItem : XItem → List Char
  | .text c => [c]
  | .ent body => '&' :: body ++ [';']
  | .tag t => renderTag t

def renderItems (items : List XItem) : List Char :=
  (items.map renderItem).flatten

def wfVPiece (q : Char) : VPiece → Prop
  | .vchar c => c ≠ q ∧ c ≠ '&' ∧ c ≠ '<' ∧ c ≠ '>'
  | .vent body => entityBodyValid body = true

def wfAttr (a : XAttr) : Prop :=
  (∀ c ∈ a.pre, c ≠ '"' ∧ c ≠ '\'' ∧ c ≠ '>') ∧
  (∀ p ∈ a.value, wfVPiece (quoteChar a.dq) p)

def wfTag (t : XTag) : Prop :=
  (∃ c rest, t.name = c :: rest ∧ isTagStartChar c = true ∧ c ≠ '!') ∧
  (∀ c ∈ t.name, jsWhitespace c = false ∧ c ≠ '>') ∧
  (∀ a ∈ t.attrs, wfAttr a)

def wfItem : XItem → Prop
  | .text c => c ≠ '<' ∧ c ≠ '>' ∧ c ≠ '&'
  | .ent body => entityBodyValid body = true
  | .tag t => wfTag t

/-- One contribution of the transducer: either the consumed text is
emitted verbatim (a single character or one of the two opener tokens),
or a single character is replaced by one of the five entity strings. -/
def goodChunk (p : List Char × List Char) : Prop :=
  (∃ c, p.1 = [c] ∧
    (p.2 = [c] ∨ p.2 = "&lt;".toList ∨ p.2 = "&gt;".toList ∨ p.2 = "&amp;".toList ∨
      p.2 = "&quot;".toList ∨ p.2 = "&apos;".toList)) ∨
  (p.2 = p.1 ∧ (p.1 = "<!--".toList ∨ p.1 = "<![CDATA[".toList))

/-- The specification's already-sanitized example document
`<text>a&lt; </text>`-style, as grammar items. -/
def sanitizedSample : List XItem :=
  [XItem.tag ⟨"text".toList, [], false⟩, XItem.text 'a',
   XItem.ent "lt".toList, XItem.text ' ',
   XItem.tag ⟨"/text".toList, [], false⟩]

/-! ### Single-step unfolding lemmas, one per branch of the loop -/

theorem sanitizeLoop_cons (st : XState) (acc : List Char) (c : Char) (t : List Char) :
    sanitizeLoop st acc (c :: t) =
      sanitizeLoop (sanitizeStep st acc c t).1
        (acc ++ (sanitizeStep st acc c t).2.1)
        (t.drop (sanitizeStep st acc c t).2.2) := by
  rw [sanitizeLoop.eq_def]

theorem step_nil (st : XState) (acc : List Char) :
    sanitizeLoop st acc [] = acc := by
  rw [sanitizeLoop.eq_def]

theorem step_text_cdata (acc t : List Char)
    (h : "![CDATA[".toList <+: t) :
    sanitizeLoop TEXT acc ('<' :: t) =
      sanitizeLoop CDATA (acc ++ "<![CDATA[".toList) (t.drop 8) := by
  have h9 : ['!', '[', 'C', 'D', 'A', 'T', 'A', '['] <+: t := h
  rw [sanitizeLoop_cons]; simp [sanitizeStep, h9]

/-- A suffix beginning with `!--` cannot begin with `![CDATA[`. -/
theorem not_cdata_of_comment (t : List Char)
    (h : "!--".toList <+: t) : ¬ ("![CDATA[".toList <+: t) := by
  rcases h with ⟨r1, hr1⟩
  rintro ⟨r2, hr2⟩
  rw [← hr1] at hr2
  simp at hr2

theorem step_text_comment (acc t : List Char)
    (h : "!--".toList <+: t) :
    sanitizeLoop TEXT acc ('<' :: t) =
      sanitizeLoop COMMENT (acc ++ "<!--".toList) (t.drop 3) := by
  have h3 : ['!', '-', '-'] <+: t := h
  have h9 : ¬ (['!', '[', 'C', 'D', 'A', 'T', 'A', '['] <+: t) := not_cdata_of_comment t h
  rw [sanitizeLoop_cons]; simp [sanitizeStep, h3, h9]

theorem step_text_tag (acc t : List Char) (n : Char)
    (hcd : ¬ ("![CDATA[".toList <+: t))
    (hcm : ¬ ("!--".toList <+: t))
    (hh : t.head? = some n) (hn : isTagStartChar n = true) :
    sanitizeLoop TEXT acc ('<' :: t) =
      sanitizeLoop TAG_OPEN (acc ++ ['<']) t := by
  have h9 : ¬ (['!', '[', 'C', 'D', 'A', 'T', 'A', '['] <+: t) := hcd
  have h3 : ¬ (['!', '-', '-'] <+: t) := hcm
  rw [sanitizeLoop_cons]; simp [sanitizeStep, h9, h3, hh, hn]

theorem step_text_lt_escape (acc t : List Char)
    (hcd : ¬ ("![CDATA[".toList <+: t))
    (hcm : ¬ ("!--".toList <+: t))
    (hh : ∀ n, t.head? = some n → isTagStartChar n = false) :
    sanitizeLoop TEXT acc ('<' :: t) =
      sanitizeLoop TEXT (acc ++ "&lt;".toList) t := by
  have h9 : ¬ (['!', '[', 'C', 'D', 'A', 'T', 'A', '['] <+: t) := hcd
  have h3 : ¬ (['!', '-', '-'] <+: t) := hcm
  rw [sanitizeLoop_cons]
  rcases ht : t.head? with _ | n
  · simp [sanitizeStep, h9, h3, ht]
  · simp [sanitizeStep, h9, h3, ht, hh n ht]

theorem step_text_amp (acc t : List Char) :
    sanitizeLoop TEXT acc ('&' :: t) =
      sanitizeLoop TEXT
        (acc ++ (if isPreEscapedEntity t then ['&'] else "&amp;".toList)) t := by
  rw [sanitizeLoop_cons]; simp [sanitizeStep]

theorem step_text_gt (acc t : List Char) :
    sanitizeLoop TEXT acc ('>' :: t) =
      sanitizeLoop TEXT (acc ++ "&gt;".toList) t := by
  rw [sanitizeLoop_cons]; simp [sanitizeStep]

theorem step_text_other (acc t : List Char) (c : Char)
    (h1 : c ≠ '<') (h2 : c ≠ '&') (h3 : c ≠ '>') :
    sanitizeLoop TEXT acc (c :: t) =
      sanitizeLoop TEXT (acc ++ [c]) t := by
  rw [sanitizeLoop_cons]; simp [sanitizeStep, h1, h2, h3]

theorem step_tag_open (acc t : List Char) (c : Char) :
    sanitizeLoop TAG_OPEN acc (c :: t) =
      sanitizeLoop (if c = '>' then TEXT else TAG_NAME) (acc ++ [c]) t := by
  rw [sanitizeLoop_cons]
  by_cases hw : jsWhitespace c
  · have hc : c ≠ '>' := by rintro rfl; simp [jsWhitespace] at hw
    simp [sanitizeStep, hw, hc]
  · by_cases hc : c = '>'
    · subst hc; simp [sanitizeStep, hw]
    · simp [sanitizeStep, hw, hc]

theorem step_tag_name (acc t : List Char) (c : Char) :
    sanitizeLoop TAG_NAME acc (c :: t) =
      sanitizeLoop
        (if jsWhitespace c then ATTR_NAME else if c = '>' then TEXT else TAG_NAME)
        (acc ++ [c]) t := by
  rw [sanitizeLoop_cons]
  by_cases hw : jsWhitespace c
  · simp [sanitizeStep, hw]
  · by_cases hc : c = '>'
    · subst hc; simp [sanitizeStep, hw]
    · simp [sanitizeStep, hw, hc]

theorem step_attr_name (acc t : List Char) (c : Char) :
    sanitizeLoop ATTR_NAME acc (c :: t) =
      sanitizeLoop
        (if c = '"' then ATTR_VALUE_DQ else if c = '\'' then ATTR_VALUE_Q
         else if c = '>' then TEXT else ATTR_NAME)
        (acc ++ [c]) t := by
  rw [sanitizeLoop_cons]
  by_cases h1 : c = '"'
  · simp [sanitizeStep, h1]
  · by_cases h2 : c = '\''
    · simp [sanitizeStep, h1, h2]
    · by_cases h3 : c = '>' <;> simp [sanitizeStep, h1, h2, h3]

theorem step_dq_quote (acc t : List Char) :
    sanitizeLoop ATTR_VALUE_DQ acc ('"' :: t) =
      if isAttributeTerminator t.head? then
        sanitizeLoop ATTR_NAME (acc ++ ['"']) t
      else
        sanitizeLoop ATTR_VALUE_DQ (acc ++ "&quot;".toList) t := by
  rw [sanitizeLoop_cons]
  by_cases h : isAttributeTerminator t.head? <;> simp [sanitizeStep, h]

theorem step_dq_amp (acc t : List Char) :
    sanitizeLoop ATTR_VALUE_DQ acc ('&' :: t) =
      sanitizeLoop ATTR_VALUE_DQ
        (acc ++ (if isPreEscapedEntity t then ['&'] else "&amp;".toList)) t := by
  rw [sanitizeLoop_cons]; simp [sanitizeStep]

theorem step_dq_lt (acc t : List Char) :
    sanitizeLoop ATTR_VALUE_DQ acc ('<' :: t) =
      sanitizeLoop ATTR_VALUE_DQ (acc ++ "&lt;".toList) t := by
  rw [sanitizeLoop_cons]; simp [sanitizeStep]

theorem step_dq_gt (acc t : List Char) :
    sanitizeLoop ATTR_VALUE_DQ acc ('>' :: t) =
      sanitizeLoop ATTR_VALUE_DQ (acc ++ "&gt;".toList) t := by
  rw [sanitizeLoop_cons]; simp [sanitizeStep]

theorem step_dq_other (acc t : List Char) (c : Char)
    (h1 : c ≠ '"') (h2 : c ≠ '&') (h3 : c ≠ '<') (h4 : c ≠ '>') :
    sanitizeLoop ATTR_VALUE_DQ acc (c :: t) =
      sanitizeLoop ATTR_VALUE_DQ (acc ++ [c]) t := by
  rw [sanitizeLoop_cons]; simp [sanitizeStep, h1, h2, h3, h4]

theorem step_q_quote (acc t : List Char) :
    sanitizeLoop ATTR_VALUE_Q acc ('\'' :: t) =
      if isAttributeTerminator t.head? then
        sanitizeLoop ATTR_NAME (acc ++ ['\'']) t
      else
        sanitizeLoop ATTR_VALUE_Q (acc ++ "&apos;".toList) t := by
  rw [sanitizeLoop_cons]
  by_cases h : isAttributeTerminator t.head? <;> simp [sanitizeStep, h]

theorem step_q_amp (acc t : List Char) :
    sanitizeLoop ATTR_VALUE_Q acc ('&' :: t) =
      sanitizeLoop ATTR_VALUE_Q
        (acc ++ (if isPreEscapedEntity t then ['&'] else "&amp;".toList)) t := by
  rw [sanitizeLoop_cons]; simp [sanitizeStep]

theorem step_q_lt (acc t : List Char) :
    sanitizeLoop ATTR_VALUE_Q acc ('<' :: t) =
      sanitizeLoop ATTR_VALUE_Q (acc ++ "&lt;".toList) t := by
  rw [sanitizeLoop_cons]; simp [sanitizeStep]

theorem step_q_gt (acc t : List Char) :
    sanitizeLoop ATTR_VALUE_Q acc ('>' :: t) =
      sanitizeLoop ATTR_VALUE_Q (acc ++ "&gt;".toList) t := by
  rw [sanitizeLoop_cons]; simp [sanitizeStep]

theorem step_q_other (acc t : List Char) (c : Char)
    (h1 : c ≠ '\'') (h2 : c ≠ '&') (h3 : c ≠ '<') (h4 : c ≠ '>') :
    sanitizeLoop ATTR_VALUE_Q acc (c :: t) =
      sanitizeLoop ATTR_VALUE_Q (acc ++ [c]) t := by
  rw [sanitizeLoop_cons]; simp [sanitizeStep, h1, h2, h3, h4]

theorem step_comment (acc t : List Char) (c : Char) :
    sanitizeLoop COMMENT acc (c :: t) =
      sanitizeLoop
        (if c = '>' && ("-->".toList).isSuffixOf (acc ++ [c]) then TEXT else COMMENT)
        (acc ++ [c]) t := by
  rw [sanitizeLoop_cons]
  by_cases h : (c = '>' && ("-->".toList).isSuffixOf (acc ++ [c])) = true
  · simp only [sanitizeStep, h, if_true]; simp
  · simp only [sanitizeStep, h, if_false, Bool.not_eq_true] at h ⊢
    simp [h]

theorem step_cdata (acc t : List Char) (c : Char) :
    sanitizeLoop CDATA acc (c :: t) =
      sanitizeLoop
        (if c = '>' && ("]]>".toList).isSuffixOf (acc ++ [c]) then TEXT else CDATA)
        (acc ++ [c]) t := by
  rw [sanitizeLoop_cons]
  by_cases h : (c = '>' && ("]]>".toList).isSuffixOf (acc ++ [c])) = true
  · simp only [sanitizeStep, h, if_true]; simp
  · simp only [sanitizeStep, h, if_false, Bool.not_eq_true] at h ⊢
    simp [h]

/-! ### Specification-side characterization of the entity test -/

theorem testHexRef_iff (body : List Char) :
    testHexRef body = true ↔
      ∃ ds, body = '#' :: 'x' :: ds ∧ ds ≠ [] ∧ ∀ c ∈ ds, isHexDigit c = true := by
  unfold testHexRef
  split
  · rename_i ds
    simp [List.isEmpty_iff, List.all_eq_true]
  · rename_i hno
    constructor
    · intro h; cases h
    · rintro ⟨ds, rfl, -, -⟩
      exact absurd rfl (hno ds)

theorem testDecRef_iff (body : List Char) :
    testDecRef body = true ↔
      ∃ ds, body = '#' :: ds ∧ ds ≠ [] ∧ ∀ c ∈ ds, isAsciiDigit c = true := by
  unfold testDecRef
  split
  · rename_i ds
    simp [List.isEmpty_iff, List.all_eq_true]
  · rename_i hno
    constructor
    · intro h; cases h
    · rintro ⟨ds, rfl, -, -⟩
      exact absurd rfl (hno ds)

theorem testNamedRef_iff (body : List Char) :
    testNamedRef body = true ↔
      ∃ c cs, body = c :: cs ∧ isAsciiLetter c = true ∧ cs ≠ [] ∧
        ∀ d ∈ cs, isAsciiAlphanum d = true := by
  unfold testNamedRef
  split
  · rename_i c cs
    simp [List.isEmpty_iff, List.all_eq_true]
    constructor
    · rintro ⟨⟨h1, h2⟩, h3⟩
      exact ⟨c, cs, ⟨rfl, rfl⟩, h1, h2, h3⟩
    · rintro ⟨c2, cs2, ⟨rfl, rfl⟩, h1, h2, h3⟩
      exact ⟨⟨h1, h2⟩, h3⟩
  · constructor
    · intro h; cases h
    · rintro ⟨c, cs, heq, -, -, -⟩
      simp_all

theorem entityBodyValid_iff (body : List Char) :
    entityBodyValid body = true ↔ specEntityBody body := by
  unfold entityBodyValid specEntityBody
  rw [Bool.and_eq_true, Bool.or_eq_true, Bool.or_eq_true,
    testHexRef_iff, testDecRef_iff, testNamedRef_iff]
  constructor
  · rintro ⟨-, h⟩
    rcases h with (h | h) | h
    · exact Or.inl h
    · exact Or.inr (Or.inl h)
    · exact Or.inr (Or.inr h)
  · intro h
    have hne : body ≠ [] := by
      rcases h with ⟨ds, rfl, -, -⟩ | ⟨ds, rfl, -, -⟩ | ⟨c, cs, rfl, -, -, -⟩ <;> simp
    refine ⟨by simp [List.isEmpty_iff, hne], ?_⟩
    rcases h with h | h | h
    · exact Or.inl (Or.inl h)
    · exact Or.inl (Or.inr h)
    · exact Or.inr h

/-- Splitting a list at its first `;`. -/
theorem split_at_first_semi (t : List Char) (h : ';' ∈ t) :
    ∃ rest, t = t.takeWhile (fun c => c ≠ ';') ++ ';' :: rest := by
  induction t with
  | nil => cases h
  | cons c t2 ih =>
    by_cases hc : c = ';'
    · subst hc
      refine ⟨t2, ?_⟩
      rw [List.takeWhile_cons_of_neg (by simp), List.nil_append]
    · have h2 : ';' ∈ t2 := by
        rcases List.mem_cons.1 h with h3 | h3
        · exact absurd h3.symm hc
        · exact h3
      obtain ⟨rest, hrest⟩ := ih h2
      refine ⟨rest, ?_⟩
      rw [List.takeWhile_cons_of_pos (by simp [hc])]
      exact congrArg (List.cons c) hrest

theorem takeWhile_ne_semi_append (body rest : List Char) (hb : ';' ∉ body) :
    (body ++ ';' :: rest).takeWhile (fun c => c ≠ ';') = body := by
  induction body with
  | nil => rw [List.nil_append, List.takeWhile_cons_of_neg (by simp)]
  | cons c b2 ih =>
    have hc : c ≠ ';' := by rintro rfl; exact hb (List.mem_cons_self _ _)
    have hb2 : ';' ∉ b2 := fun h2 => hb (List.mem_cons_of_mem _ h2)
    rw [List.cons_append, List.takeWhile_cons_of_pos (by simp [hc]), ih hb2]

/-- The full scan-and-classify behaviour of `isPreEscapedEntity`,
re-expressed as the specification states it. -/
theorem isPreEscapedEntity_iff (t : List Char) :
    isPreEscapedEntity t = true ↔
      ∃ body rest, t = body ++ ';' :: rest ∧ ';' ∉ body ∧ specEntityBody body := by
  unfold isPreEscapedEntity
  rw [Bool.and_eq_true]
  constructor
  · rintro ⟨hmem, hvalid⟩
    have hmem2 : ';' ∈ t := by simpa using hmem
    obtain ⟨rest, hsplit⟩ := split_at_first_semi t hmem2
    refine ⟨t.takeWhile (fun c => c ≠ ';'), rest, hsplit, ?_, (entityBodyValid_iff _).1 hvalid⟩
    intro hmem3
    have := List.mem_takeWhile_imp hmem3
    simp at this
  · rintro ⟨body, rest, rfl, hnot, hspec⟩
    refine ⟨by simp, ?_⟩
    rw [takeWhile_ne_semi_append body rest hnot]
    exact (entityBodyValid_iff _).2 hspec

/-- If no `;` follows, the entity test fails. -/
theorem isPreEscapedEntity_no_semi (t : List Char) (h : ';' ∉ t) :
    isPreEscapedEntity t = false := by
  unfold isPreEscapedEntity
  have h2 : t.contains ';' = false := by
    simpa using h
  rw [h2, Bool.false_and]

/-! ### Claim C1: the pre-escaped-entity test -/

/-- C1: whenever the current character is `&` in the TEXT state or in
either attribute-value state, the sanitizer scans forward to the next
`;` in the original input; if no `;` exists before end-of-input it
emits `&amp;`; otherwise it emits the `&` unescaped if and only if the
substring strictly between `&` and `;` matches `#x` followed by one or
more hex digits, or `#` followed by one or more decimal digits, or a
letter followed by one or more letters/digits (total length ≥ 2); in
every other case it emits `&amp;`. -/
theorem c1_pre_escaped_entity_test (acc t : List Char) :
    (sanitizeLoop TEXT acc ('&' :: t) =
      sanitizeLoop TEXT
        (acc ++ (if isPreEscapedEntity t then ['&'] else "&amp;".toList)) t) ∧
    (sanitizeLoop ATTR_VALUE_DQ acc ('&' :: t) =
      sanitizeLoop ATTR_VALUE_DQ
        (acc ++ (if isPreEscapedEntity t then ['&'] else "&amp;".toList)) t) ∧
    (sanitizeLoop ATTR_VALUE_Q acc ('&' :: t) =
      sanitizeLoop ATTR_VALUE_Q
        (acc ++ (if isPreEscapedEntity t then ['&'] else "&amp;".toList)) t) ∧
    (isPreEscapedEntity t = true ↔
      ∃ body rest, t = body ++ ';' :: rest ∧ ';' ∉ body ∧ specEntityBody body) ∧
    (';' ∉ t → isPreEscapedEntity t = false) :=
  ⟨step_text_amp acc t, step_dq_amp acc t, step_q_amp acc t,
   isPreEscapedEntity_iff t, isPreEscapedEntity_no_semi t⟩

/-- C1 witness: at the concrete suffix `ampx` (no `;` at all) the test
fails, via the theorem's final conjunct. -/
theorem c1_pre_escaped_entity_test_witness :
    isPreEscapedEntity "ampx".toList = false :=
  (c1_pre_escaped_entity_test [] "ampx".toList).2.2.2.2 (by decide)

/-! ### Claim C2: the attribute-quote terminator heuristic -/

/-- C2: inside a double-quoted attribute value, a `"` whose immediately
following character is end-of-input, `>`, `/`, `?`, or whitespace is
emitted literally and closes the value (state returns to attribute
scanning); a `"` followed by any other character is emitted as `&quot;`
with the state staying inside the value; the single-quoted state mirrors
this with `'` and `&apos;`; a quote of the other style inside a value is
always emitted unchanged. -/
theorem c2_attribute_quote_terminator (acc t : List Char) :
    (sanitizeLoop ATTR_VALUE_DQ acc ('"' :: t) =
      if isAttributeTerminator t.head? then
        sanitizeLoop ATTR_NAME (acc ++ ['"']) t
      else
        sanitizeLoop ATTR_VALUE_DQ (acc ++ "&quot;".toList) t) ∧
    (sanitizeLoop ATTR_VALUE_Q acc ('\'' :: t) =
      if isAttributeTerminator t.head? then
        sanitizeLoop ATTR_NAME (acc ++ ['\'']) t
      else
        sanitizeLoop ATTR_VALUE_Q (acc ++ "&apos;".toList) t) ∧
    (sanitizeLoop ATTR_VALUE_DQ acc ('\'' :: t) =
      sanitizeLoop ATTR_VALUE_DQ (acc ++ ['\'']) t) ∧
    (sanitizeLoop ATTR_VALUE_Q acc ('"' :: t) =
      sanitizeLoop ATTR_VALUE_Q (acc ++ ['"']) t) ∧
    (isAttributeTerminator t.head? = true ↔
      t = [] ∨ ∃ c t2, t = c :: t2 ∧
        (c = '>' ∨ c = '/' ∨ c = '?' ∨ jsWhitespace c = true)) := by
  refine ⟨step_dq_quote acc t, step_q_quote acc t,
    step_dq_other acc t '\'' (by decide) (by decide) (by decide) (by decide),
    step_q_other acc t '"' (by decide) (by decide) (by decide) (by decide), ?_⟩
  cases t with
  | nil => simp [isAttributeTerminator]
  | cons c t2 =>
    simp only [List.head?_cons, isAttributeTerminator]
    constructor
    · intro h
      refine Or.inr ⟨c, t2, rfl, ?_⟩
      have h2 := h
      simp only [Bool.or_eq_true, decide_eq_true_eq] at h2
      tauto
    · rintro (h | ⟨c2, t3, heq, h⟩)
      · cases h
      · cases heq
        simp only [Bool.or_eq_true, decide_eq_true_eq]
        tauto

/-! ### Claim C3: TEXT-state classification of `<` and `>` -/

/-- C3: in the TEXT state (after the CDATA and comment lookaheads
fail), a `<` whose next character is a letter, digit, `_`, `:`, `/`,
`?`, or `!` is emitted literally and the machine enters the tag-open
state; a `<` with any other next character (including none at end of
input) is emitted as `&lt;` with the state remaining TEXT; every `>`
encountered in the TEXT state is emitted as `&gt;`. -/
theorem c3_text_angle_classification (acc t : List Char)
    (hcd : ¬ ("![CDATA[".toList <+: t)) (hcm : ¬ ("!--".toList <+: t)) :
    (∀ n, t.head? = some n → isTagStartChar n = true →
      sanitizeLoop TEXT acc ('<' :: t) = sanitizeLoop TAG_OPEN (acc ++ ['<']) t) ∧
    ((∀ n, t.head? = some n → isTagStartChar n = false) →
      sanitizeLoop TEXT acc ('<' :: t) = sanitizeLoop TEXT (acc ++ "&lt;".toList) t) ∧
    (∀ n, isTagStartChar n = true ↔
      (isAsciiLetter n = true ∨ isAsciiDigit n = true ∨ n = '_' ∨ n = ':' ∨
        n = '/' ∨ n = '?' ∨ n = '!')) ∧
    (sanitizeLoop TEXT acc ('>' :: t) = sanitizeLoop TEXT (acc ++ "&gt;".toList) t) := by
  refine ⟨fun n hh hn => step_text_tag acc t n hcd hcm hh hn,
    fun hh => step_text_lt_escape acc t hcd hcm hh, fun n => ?_, step_text_gt acc t⟩
  simp only [isTagStartChar, isAsciiAlphanum, Bool.or_eq_true, decide_eq_true_eq]
  tauto

/-- C3 witness: the concrete suffix `a>` begins with the tag-start
letter `a`, so the `<` is kept literally and the state becomes
TAG_OPEN. -/
theorem c3_text_angle_classification_witness :
    sanitizeLoop TEXT [] ('<' :: "a>".toList) =
      sanitizeLoop TAG_OPEN ([] ++ ['<']) "a>".toList :=
  (c3_text_angle_classification [] "a>".toList (by decide) (by decide)).1 'a' rfl (by decide)

/-! ### Claim C4: comment and CDATA pass-through -/

/-- The closing-sequence test of the COMMENT/CDATA states already
forces the just-emitted character to be the final `>` of the closing
sequence. -/
theorem last_char_of_close (u : List Char) (acc : List Char) (c : Char)
    (h : ((u ++ ['>']).isSuffixOf (acc ++ [c])) = true) : c = '>' := by
  rw [List.isSuffixOf_iff_suffix] at h
  rcases h with ⟨pre, hpre⟩
  have h2 := congrArg List.getLast? hpre
  rw [← List.append_assoc] at h2
  simp only [List.getLast?_concat] at h2
  exact (Option.some_injective _ h2).symm

theorem comment_close_eq (acc : List Char) (c : Char) :
    (c = '>' && ("-->".toList).isSuffixOf (acc ++ [c])) =
      ("-->".toList).isSuffixOf (acc ++ [c]) := by
  by_cases hs : ("-->".toList).isSuffixOf (acc ++ [c]) = true
  · have hc : c = '>' := last_char_of_close ['-', '-'] acc c hs
    simp [hc, hs]
  · simp only [Bool.not_eq_true] at hs
    rw [hs, Bool.and_false]

theorem cdata_close_eq (acc : List Char) (c : Char) :
    (c = '>' && ("]]>".toList).isSuffixOf (acc ++ [c])) =
      ("]]>".toList).isSuffixOf (acc ++ [c]) := by
  by_cases hs : ("]]>".toList).isSuffixOf (acc ++ [c]) = true
  · have hc : c = '>' := last_char_of_close [']', ']'] acc c hs
    simp [hc, hs]
  · simp only [Bool.not_eq_true] at hs
    rw [hs, Bool.and_false]

/-- C4: when the TEXT state sees input starting with `<!--`
(resp. `<![CDATA[`), that opener is emitted literally and the machine
enters COMMENT (resp. CDATA); inside those states every character,
including `<`, `>`, `&`, and quote characters, is copied verbatim with
no escaping, and the machine returns to TEXT exactly when the emitted
text ends with the literal sequence `-->` (resp. `]]>`). -/
theorem c4_comment_cdata_passthrough (acc t : List Char) :
    (("!--".toList <+: t) →
      sanitizeLoop TEXT acc ('<' :: t) =
        sanitizeLoop COMMENT (acc ++ "<!--".toList) (t.drop 3)) ∧
    (("![CDATA[".toList <+: t) →
      sanitizeLoop TEXT acc ('<' :: t) =
        sanitizeLoop CDATA (acc ++ "<![CDATA[".toList) (t.drop 8)) ∧
    (∀ c, sanitizeLoop COMMENT acc (c :: t) =
      sanitizeLoop
        (if ("-->".toList).isSuffixOf (acc ++ [c]) then TEXT else COMMENT)
        (acc ++ [c]) t) ∧
    (∀ c, sanitizeLoop CDATA acc (c :: t) =
      sanitizeLoop
        (if ("]]>".toList).isSuffixOf (acc ++ [c]) then TEXT else CDATA)
        (acc ++ [c]) t) := by
  refine ⟨step_text_comment acc t, step_text_cdata acc t, fun c => ?_, fun c => ?_⟩
  · rw [step_comment acc t c, comment_close_eq acc c]
  · rw [step_cdata acc t c, cdata_close_eq acc c]

/-- C4 witness: the suffix `!--x` starts a comment at the concrete
input `<!--x`. -/
theorem c4_comment_cdata_passthrough_witness :
    sanitizeLoop TEXT [] ('<' :: "!--x".toList) =
      sanitizeLoop COMMENT ([] ++ "<!--".toList) ("!--x".toList.drop 3) :=
  (c4_comment_cdata_passthrough [] "!--x".toList).1 ⟨"x".toList, rfl⟩

/-! ### Claim C6: no double-escaping of valid entity references -/

/-- A valid entity body contains no `;`. -/
theorem semi_not_in_entity_body (body : List Char)
    (h : entityBodyValid body = true) : ';' ∉ body := by
  rcases (entityBodyValid_iff body).1 h with
    ⟨ds, rfl, -, hall⟩ | ⟨ds, rfl, -, hall⟩ | ⟨c, cs, rfl, hc, -, hall⟩
  · intro hmem
    rcases List.mem_cons.1 hmem with h1 | hmem2
    · cases h1
    rcases List.mem_cons.1 hmem2 with h1 | hmem3
    · cases h1
    have := hall ';' hmem3
    simp [isHexDigit, isAsciiDigit] at this
  · intro hmem
    rcases List.mem_cons.1 hmem with h1 | hmem2
    · cases h1
    have := hall ';' hmem2
    simp [isAsciiDigit] at this
  · intro hmem
    rcases List.mem_cons.1 hmem with h1 | hmem2
    · subst h1
      simp [isAsciiLetter] at hc
    have := hall ';' hmem2
    simp [isAsciiAlphanum, isAsciiLetter, isAsciiDigit] at this

/-- At the `&` of a valid entity reference, the forward scan finds the
entity's own `;` and the test succeeds. -/
theorem entity_scan_true (body rest : List Char)
    (h : entityBodyValid body = true) :
    isPreEscapedEntity (body ++ ';' :: rest) = true := by
  rw [isPreEscapedEntity_iff]
  exact ⟨body, rest, rfl, semi_not_in_entity_body body h,
    (entityBodyValid_iff body).1 h⟩

/-- C6: for every input text containing an occurrence of a valid entity
reference (named `&name;`, decimal `&#digits;`, or hex `&#xhex;`), the
leading `&` of that occurrence is never rewritten to `&amp;` — in every
machine state the step at that `&` emits exactly the single character
`&`. -/
theorem c6_no_double_escaping (st : XState) (acc body rest : List Char)
    (h : specEntityBody body) :
    ∃ st2, sanitizeLoop st acc ('&' :: (body ++ ';' :: rest)) =
      sanitizeLoop st2 (acc ++ ['&']) (body ++ ';' :: rest) := by
  have hv : entityBodyValid body = true := (entityBodyValid_iff body).2 h
  have hscan : isPreEscapedEntity (body ++ ';' :: rest) = true :=
    entity_scan_true body rest hv
  cases st with
  | TEXT => exact ⟨TEXT, by rw [step_text_amp]; simp [hscan]⟩
  | TAG_OPEN => exact ⟨TAG_NAME, by rw [step_tag_open]; simp⟩
  | TAG_NAME =>
    refine ⟨TAG_NAME, ?_⟩
    rw [step_tag_name]
    simp [show jsWhitespace '&' = false from by decide]
  | ATTR_NAME => exact ⟨ATTR_NAME, by rw [step_attr_name]; simp⟩
  | ATTR_VALUE_DQ => exact ⟨ATTR_VALUE_DQ, by rw [step_dq_amp]; simp [hscan]⟩
  | ATTR_VALUE_Q => exact ⟨ATTR_VALUE_Q, by rw [step_q_amp]; simp [hscan]⟩
  | COMMENT => exact ⟨COMMENT, by rw [step_comment]; simp⟩
  | CDATA => exact ⟨CDATA, by rw [step_cdata]; simp⟩

/-- C6 witness: the named reference `&lt;` in the TEXT state. -/
theorem c6_no_double_escaping_witness :
    ∃ st2, sanitizeLoop TEXT [] ('&' :: ("lt".toList ++ ';' :: "x".toList)) =
      sanitizeLoop st2 ([] ++ ['&']) ("lt".toList ++ ';' :: "x".toList) :=
  c6_no_double_escaping TEXT [] "lt".toList "x".toList
    (Or.inr (Or.inr ⟨'l', ['t'], rfl, by decide, by decide, by decide⟩))

/-! ### Claim C7: totality and strict cursor progress -/

/-- The extra consumption of a step never exceeds the remaining
suffix. -/
theorem sanitizeStep_consumed_le (st : XState) (acc : List Char) (c : Char)
    (t : List Char) : (sanitizeStep st acc c t).2.2 ≤ t.length := by
  cases st <;> simp only [sanitizeStep] <;> repeat' split
  all_goals (try simp)
  · rename_i h
    rw [List.isPrefixOf_iff_prefix] at h
    simpa using h.length_le
  · rename_i h
    rw [List.isPrefixOf_iff_prefix] at h
    simpa using h.length_le

/-- C7: the sanitizer is total: on empty remaining input it returns the
buffered output, and on any nonempty remaining input one iteration
advances the cursor by at least one (and at most the remaining
length). -/
theorem c7_totality_progress :
    (∀ st : XState, ∀ acc : List Char, sanitizeLoop st acc [] = acc) ∧
    (∀ st : XState, ∀ acc : List Char, ∀ c : Char, ∀ t : List Char,
      ∃ st2 out k, 1 ≤ k ∧ k ≤ (c :: t).length ∧
        sanitizeLoop st acc (c :: t) = sanitizeLoop st2 (acc ++ out) ((c :: t).drop k)) := by
  refine ⟨step_nil, fun st acc c t => ?_⟩
  refine ⟨(sanitizeStep st acc c t).1, (sanitizeStep st acc c t).2.1,
    (sanitizeStep st acc c t).2.2 + 1, by omega, ?_, ?_⟩
  · have := sanitizeStep_consumed_le st acc c t
    simp only [List.length_cons]
    omega
  · exact sanitizeLoop_cons st acc c t

/-! ### Claim C8: monotonic length -/

/-- Every step emits at least one more code unit than its extra
consumption (one for the current character). -/
theorem sanitizeStep_emits_ge (st : XState) (acc : List Char) (c : Char)
    (t : List Char) :
    (sanitizeStep st acc c t).2.2 + 1 ≤ (sanitizeStep st acc c t).2.1.length := by
  cases st <;> simp only [sanitizeStep] <;> repeat' split
  all_goals simp

/-- The loop only ever appends at least as much as it consumes. -/
theorem sanitizeLoop_length_ge :
    ∀ n : Nat, ∀ st : XState, ∀ acc rest : List Char, rest.length ≤ n →
      acc.length + rest.length ≤ (sanitizeLoop st acc rest).length := by
  intro n
  induction n with
  | zero =>
    intro st acc rest h
    have hr : rest = [] := List.eq_nil_of_length_eq_zero (by omega)
    subst hr
    simp [step_nil]
  | succ n ih =>
    intro st acc rest hle
    cases rest with
    | nil => simp [step_nil]
    | cons c t =>
      rw [sanitizeLoop_cons]
      have hk := sanitizeStep_consumed_le st acc c t
      have ho := sanitizeStep_emits_ge st acc c t
      have hrec := ih (sanitizeStep st acc c t).1
        (acc ++ (sanitizeStep st acc c t).2.1)
        (t.drop (sanitizeStep st acc c t).2.2)
        (by simp only [List.length_drop]; simp only [List.length_cons] at hle; omega)
      simp only [List.length_append, List.length_drop, List.length_cons] at hrec ⊢
      omega

/-- C8: for every input string the length of `sanitizeXml s` is at
least the length of `s` — escaping only ever expands. -/
theorem c8_monotonic_length (s : String) : s.length ≤ (sanitizeXml s).length := by
  have h := sanitizeLoop_length_ge s.data.length TEXT [] s.data le_rfl
  simp only [List.length_nil, Nat.zero_add] at h
  exact h

/-! ### Claim C10: identity on inputs without special characters -/

/-- A run of plain characters (none of `<`, `>`, `&`) is copied
verbatim by the TEXT state. -/
theorem text_copy_run (cs : List Char)
    (hall : ∀ c ∈ cs, c ≠ '<' ∧ c ≠ '>' ∧ c ≠ '&') :
    ∀ acc rest : List Char,
      sanitizeLoop TEXT acc (cs ++ rest) = sanitizeLoop TEXT (acc ++ cs) rest := by
  induction cs with
  | nil => intro acc rest; simp
  | cons c cs2 ih =>
    intro acc rest
    obtain ⟨h1, h2, h3⟩ := hall c (List.mem_cons_self _ _)
    rw [List.cons_append, step_text_other acc _ c h1 h3 h2,
      ih (fun d hd => hall d (List.mem_cons_of_mem _ hd)) (acc ++ [c]) rest]
    simp

/-- C10: for every input string containing none of `<`, `>`, `&`, the
sanitizer returns the input unchanged — in particular quotes in plain
text are not escaped, and the empty string maps to itself. -/
theorem c10_identity_no_specials (s : String)
    (h : ∀ c ∈ s.data, c ≠ '<' ∧ c ≠ '>' ∧ c ≠ '&') :
    sanitizeXml s = s := by
  unfold sanitizeXml
  have h2 := text_copy_run s.data h [] []
  rw [List.append_nil, step_nil, List.nil_append] at h2
  rw [h2]

/-- C10 witness: a concrete plain string with both quote styles and a
space, and no `<`, `>`, `&`. -/
theorem c10_identity_no_specials_witness :
    sanitizeXml "ab c\'d\"e" = "ab c\'d\"e" :=
  c10_identity_no_specials "ab c\'d\"e" (by decide)

/-! ### Claim C9: output-shape invariant -/

/-- Each single step contributes one `goodChunk`. -/
theorem sanitizeStep_chunk (st : XState) (acc : List Char) (c : Char)
    (t : List Char) :
    goodChunk (c :: t.take (sanitizeStep st acc c t).2.2,
      (sanitizeStep st acc c t).2.1) := by
  cases st <;> simp only [sanitizeStep] <;> repeat' split
  all_goals try (left; refine ⟨c, ?_, ?_⟩ <;> simp_all <;> done)
  · rename_i hc h
    subst hc
    rw [List.isPrefixOf_iff_prefix, List.prefix_iff_eq_take] at h
    rw [show ("![CDATA[".toList).length = 8 from rfl] at h
    show goodChunk ('<' :: List.take 8 t, "<![CDATA[".toList)
    have hp1 : ('<' :: List.take 8 t) = "<![CDATA[".toList := by rw [← h]; rfl
    exact Or.inr ⟨hp1.symm, Or.inr hp1⟩
  · rename_i hc hncd h
    subst hc
    rw [List.isPrefixOf_iff_prefix, List.prefix_iff_eq_take] at h
    rw [show ("!--".toList).length = 3 from rfl] at h
    show goodChunk ('<' :: List.take 3 t, "<!--".toList)
    have hp1 : ('<' :: List.take 3 t) = "<!--".toList := by rw [← h]; rfl
    exact Or.inr ⟨hp1.symm, Or.inl hp1⟩

/-- The whole run decomposes into consecutive `goodChunk`
contributions. -/
theorem sanitizeLoop_chunks :
    ∀ n : Nat, ∀ st : XState, ∀ acc rest : List Char, rest.length ≤ n →
      ∃ chunks : List (List Char × List Char),
        rest = (chunks.map Prod.fst).flatten ∧
        sanitizeLoop st acc rest = acc ++ (chunks.map Prod.snd).flatten ∧
        ∀ p ∈ chunks, goodChunk p := by
  intro n
  induction n with
  | zero =>
    intro st acc rest h
    have hr : rest = [] := List.eq_nil_of_length_eq_zero (by omega)
    subst hr
    exact ⟨[], by simp, by simp [step_nil], by simp⟩
  | succ n ih =>
    intro st acc rest hle
    cases rest with
    | nil => exact ⟨[], by simp, by simp [step_nil], by simp⟩
    | cons c t =>
      have hk := sanitizeStep_consumed_le st acc c t
      obtain ⟨chunks, h1, h2, h3⟩ := ih (sanitizeStep st acc c t).1
        (acc ++ (sanitizeStep st acc c t).2.1)
        (t.drop (sanitizeStep st acc c t).2.2)
        (by simp only [List.length_drop]; simp only [List.length_cons] at hle; omega)
      refine ⟨(c :: t.take (sanitizeStep st acc c t).2.2,
        (sanitizeStep st acc c t).2.1) :: chunks, ?_, ?_, ?_⟩
      · simp only [List.map_cons, List.flatten_cons]
        rw [← h1, List.cons_append]
        rw [List.take_append_drop]
      · rw [sanitizeLoop_cons, h2]
        simp [List.append_assoc]
      · intro p hp
        rcases List.mem_cons.1 hp with rfl | hp2
        · exact sanitizeStep_chunk st acc c t
        · exact h3 p hp2

/-- C9: for every input, the output of `sanitizeXml` is the
concatenation, in input order, of one contribution per consumed input
code unit (or per consumed opener token `<!--` / `<![CDATA[`), where
each contribution is either the consumed text itself or exactly one of
the five entity strings `&lt;`, `&gt;`, `&amp;`, `&quot;`, `&apos;`
substituted for a single character — nothing is deleted, reordered, or
otherwise inserted. -/
theorem c9_output_shape (s : String) :
    ∃ chunks : List (List Char × List Char),
      s.data = (chunks.map Prod.fst).flatten ∧
      (sanitizeXml s).data = (chunks.map Prod.snd).flatten ∧
      ∀ p ∈ chunks, goodChunk p := by
  obtain ⟨chunks, h1, h2, h3⟩ :=
    sanitizeLoop_chunks s.data.length TEXT [] s.data le_rfl
  exact ⟨chunks, h1, by simpa using h2, h3⟩

/-! Characters occurring inside a valid entity body are `#` or
ASCII alphanumeric, hence harmless in every escaping state. -/

theorem hex_is_alnum (c : Char) (h : isHexDigit c = true) :
    isAsciiAlphanum c = true := by
  simp only [isHexDigit, isAsciiDigit, Bool.or_eq_true, Bool.and_eq_true,
    decide_eq_true_eq] at h
  simp only [isAsciiAlphanum, isAsciiLetter, isAsciiDigit, Bool.or_eq_true,
    Bool.and_eq_true, decide_eq_true_eq]
  rcases h with (h | ⟨h1, h2⟩) | ⟨h1, h2⟩
  · exact Or.inr h
  · exact Or.inl (Or.inl ⟨h1, le_trans h2 (by decide)⟩)
  · exact Or.inl (Or.inr ⟨h1, le_trans h2 (by decide)⟩)

theorem entity_body_chars (body : List Char) (h : entityBodyValid body = true) :
    ∀ c ∈ body, c = '#' ∨ isAsciiAlphanum c = true := by
  rcases (entityBodyValid_iff body).1 h with
    ⟨ds, rfl, -, hall⟩ | ⟨ds, rfl, -, hall⟩ | ⟨c0, cs, rfl, hc0, -, hall⟩
  · intro c hc
    rcases List.mem_cons.1 hc with rfl | hc2
    · exact Or.inl rfl
    rcases List.mem_cons.1 hc2 with rfl | hc3
    · exact Or.inr (by decide)
    · exact Or.inr (hex_is_alnum c (hall c hc3))
  · intro c hc
    rcases List.mem_cons.1 hc with rfl | hc2
    · exact Or.inl rfl
    · exact Or.inr (by simp [isAsciiAlphanum, hall c hc2])
  · intro c hc
    rcases List.mem_cons.1 hc with rfl | hc2
    · exact Or.inr (by simp [isAsciiAlphanum, hc0])
    · exact Or.inr (hall c hc2)

theorem alnum_not_special (c : Char) (h : isAsciiAlphanum c = true) :
    c ≠ '<' ∧ c ≠ '>' ∧ c ≠ '&' ∧ c ≠ '"' ∧ c ≠ '\'' ∧ c ≠ ';' := by
  refine ⟨?_, ?_, ?_, ?_, ?_, ?_⟩ <;> (rintro rfl; revert h; decide)

/-- An entity-body character (or `;`) is not special in any escaping
state. -/
theorem entity_char_not_special (c : Char)
    (h : c = '#' ∨ isAsciiAlphanum c = true ∨ c = ';') :
    c ≠ '<' ∧ c ≠ '>' ∧ c ≠ '&' ∧ c ≠ '"' ∧ c ≠ '\'' := by
  rcases h with rfl | h | rfl
  · exact ⟨by decide, by decide, by decide, by decide, by decide⟩
  · obtain ⟨h1, h2, h3, h4, h5, -⟩ := alnum_not_special c h
    exact ⟨h1, h2, h3, h4, h5⟩
  · exact ⟨by decide, by decide, by decide, by decide, by decide⟩

/-! Verbatim-copy runs in the structural states. -/

theorem tagname_copy_run (cs : List Char)
    (h : ∀ c ∈ cs, jsWhitespace c = false ∧ c ≠ '>') :
    ∀ acc rest : List Char,
      sanitizeLoop TAG_NAME acc (cs ++ rest) =
        sanitizeLoop TAG_NAME (acc ++ cs) rest := by
  induction cs with
  | nil => intro acc rest; simp
  | cons c cs2 ih =>
    intro acc rest
    obtain ⟨h1, h2⟩ := h c (List.mem_cons_self _ _)
    rw [List.cons_append, step_tag_name]
    simp only [h1, h2, if_false, Bool.false_eq_true]
    rw [ih (fun d hd => h d (List.mem_cons_of_mem _ hd))]
    simp

theorem attrname_copy_run (cs : List Char)
    (h : ∀ c ∈ cs, c ≠ '"' ∧ c ≠ '\'' ∧ c ≠ '>') :
    ∀ acc rest : List Char,
      sanitizeLoop ATTR_NAME acc (cs ++ rest) =
        sanitizeLoop ATTR_NAME (acc ++ cs) rest := by
  induction cs with
  | nil => intro acc rest; simp
  | cons c cs2 ih =>
    intro acc rest
    obtain ⟨h1, h2, h3⟩ := h c (List.mem_cons_self _ _)
    rw [List.cons_append, step_attr_name]
    simp only [h1, h2, h3, if_false]
    rw [ih (fun d hd => h d (List.mem_cons_of_mem _ hd))]
    simp

theorem dq_copy_run (cs : List Char)
    (h : ∀ c ∈ cs, c ≠ '"' ∧ c ≠ '&' ∧ c ≠ '<' ∧ c ≠ '>') :
    ∀ acc rest : List Char,
      sanitizeLoop ATTR_VALUE_DQ acc (cs ++ rest) =
        sanitizeLoop ATTR_VALUE_DQ (acc ++ cs) rest := by
  induction cs with
  | nil => intro acc rest; simp
  | cons c cs2 ih =>
    intro acc rest
    obtain ⟨h1, h2, h3, h4⟩ := h c (List.mem_cons_self _ _)
    rw [List.cons_append, step_dq_other acc _ c h1 h2 h3 h4,
      ih (fun d hd => h d (List.mem_cons_of_mem _ hd))]
    simp

theorem q_copy_run (cs : List Char)
    (h : ∀ c ∈ cs, c ≠ '\'' ∧ c ≠ '&' ∧ c ≠ '<' ∧ c ≠ '>') :
    ∀ acc rest : List Char,
      sanitizeLoop ATTR_VALUE_Q acc (cs ++ rest) =
        sanitizeLoop ATTR_VALUE_Q (acc ++ cs) rest := by
  induction cs with
  | nil => intro acc rest; simp
  | cons c cs2 ih =>
    intro acc rest
    obtain ⟨h1, h2, h3, h4⟩ := h c (List.mem_cons_self _ _)
    rw [List.cons_append, step_q_other acc _ c h1 h2 h3 h4,
      ih (fun d hd => h d (List.mem_cons_of_mem _ hd))]
    simp

/-! A full entity reference `&body;` is copied verbatim in the TEXT and
attribute-value states. -/

theorem text_entity_run (body : List Char) (h : entityBodyValid body = true)
    (acc rest : List Char) :
    sanitizeLoop TEXT acc (('&' :: (body ++ [';'])) ++ rest) =
      sanitizeLoop TEXT (acc ++ '&' :: (body ++ [';'])) rest := by
  have hchars := entity_body_chars body h
  rw [List.cons_append, List.append_assoc, List.singleton_append,
    step_text_amp, entity_scan_true body rest h, if_pos rfl]
  have hsafe : ∀ c ∈ body ++ [';'], c ≠ '<' ∧ c ≠ '>' ∧ c ≠ '&' := by
    intro c hc
    rcases List.mem_append.1 hc with hc2 | hc2
    · obtain ⟨h1, h2, h3, -, -⟩ := entity_char_not_special c
        (by rcases hchars c hc2 with h4 | h4
            · exact Or.inl h4
            · exact Or.inr (Or.inl h4))
      exact ⟨h1, h2, h3⟩
    · rcases List.mem_singleton.1 hc2 with rfl
      exact ⟨by decide, by decide, by decide⟩
  have hrun := text_copy_run (body ++ [';']) hsafe (acc ++ ['&']) rest
  rw [List.append_assoc, List.singleton_append] at hrun
  rw [hrun]
  simp

theorem dq_entity_run (body : List Char) (h : entityBodyValid body = true)
    (acc rest : List Char) :
    sanitizeLoop ATTR_VALUE_DQ acc (('&' :: (body ++ [';'])) ++ rest) =
      sanitizeLoop ATTR_VALUE_DQ (acc ++ '&' :: (body ++ [';'])) rest := by
  have hchars := entity_body_chars body h
  rw [List.cons_append, List.append_assoc, List.singleton_append,
    step_dq_amp, entity_scan_true body rest h, if_pos rfl]
  have hsafe : ∀ c ∈ body ++ [';'], c ≠ '"' ∧ c ≠ '&' ∧ c ≠ '<' ∧ c ≠ '>' := by
    intro c hc
    rcases List.mem_append.1 hc with hc2 | hc2
    · obtain ⟨h1, h2, h3, h4, -⟩ := entity_char_not_special c
        (by rcases hchars c hc2 with h5 | h5
            · exact Or.inl h5
            · exact Or.inr (Or.inl h5))
      exact ⟨h4, h3, h1, h2⟩
    · rcases List.mem_singleton.1 hc2 with rfl
      exact ⟨by decide, by decide, by decide, by decide⟩
  have hrun := dq_copy_run (body ++ [';']) hsafe (acc ++ ['&']) rest
  rw [List.append_assoc, List.singleton_append] at hrun
  rw [hrun]
  simp

theorem q_entity_run (body : List Char) (h : entityBodyValid body = true)
    (acc rest : List Char) :
    sanitizeLoop ATTR_VALUE_Q acc (('&' :: (body ++ [';'])) ++ rest) =
      sanitizeLoop ATTR_VALUE_Q (acc ++ '&' :: (body ++ [';'])) rest := by
  have hchars := entity_body_chars body h
  rw [List.cons_append, List.append_assoc, List.singleton_append,
    step_q_amp, entity_scan_true body rest h, if_pos rfl]
  have hsafe : ∀ c ∈ body ++ [';'], c ≠ '\'' ∧ c ≠ '&' ∧ c ≠ '<' ∧ c ≠ '>' := by
    intro c hc
    rcases List.mem_append.1 hc with hc2 | hc2
    · obtain ⟨h1, h2, h3, -, h5⟩ := entity_char_not_special c
        (by rcases hchars c hc2 with h6 | h6
            · exact Or.inl h6
            · exact Or.inr (Or.inl h6))
      exact ⟨h5, h3, h1, h2⟩
    · rcases List.mem_singleton.1 hc2 with rfl
      exact ⟨by decide, by decide, by decide, by decide⟩
  have hrun := q_copy_run (body ++ [';']) hsafe (acc ++ ['&']) rest
  rw [List.append_assoc, List.singleton_append] at hrun
  rw [hrun]
  simp

/-! Attribute values are copied verbatim (entities kept, plain
characters copied). -/

theorem dq_value_run (vs : List VPiece) (h : ∀ p ∈ vs, wfVPiece '"' p) :
    ∀ acc rest : List Char,
      sanitizeLoop ATTR_VALUE_DQ acc ((vs.map renderVPiece).flatten ++ rest) =
        sanitizeLoop ATTR_VALUE_DQ (acc ++ (vs.map renderVPiece).flatten) rest := by
  induction vs with
  | nil => intro acc rest; simp
  | cons p vs2 ih =>
    intro acc rest
    have hp := h p (List.mem_cons_self _ _)
    have h2 : ∀ q ∈ vs2, wfVPiece '"' q := fun q hq => h q (List.mem_cons_of_mem _ hq)
    simp only [List.map_cons, List.flatten_cons, List.append_assoc]
    cases p with
    | vchar c =>
      obtain ⟨h1, h3, h4, h5⟩ := hp
      rw [show renderVPiece (VPiece.vchar c) = [c] from rfl, List.singleton_append,
        step_dq_other acc _ c h1 h3 h4 h5, ih h2]
      simp
    | vent body =>
      rw [show renderVPiece (VPiece.vent body) = '&' :: (body ++ [';']) from rfl,
        dq_entity_run body hp, ih h2]
      simp

theorem q_value_run (vs : List VPiece) (h : ∀ p ∈ vs, wfVPiece '\'' p) :
    ∀ acc rest : List Char,
      sanitizeLoop ATTR_VALUE_Q acc ((vs.map renderVPiece).flatten ++ rest) =
        sanitizeLoop ATTR_VALUE_Q (acc ++ (vs.map renderVPiece).flatten) rest := by
  induction vs with
  | nil => intro acc rest; simp
  | cons p vs2 ih =>
    intro acc rest
    have hp := h p (List.mem_cons_self _ _)
    have h2 : ∀ q ∈ vs2, wfVPiece '\'' q := fun q hq => h q (List.mem_cons_of_mem _ hq)
    simp only [List.map_cons, List.flatten_cons, List.append_assoc]
    cases p with
    | vchar c =>
      obtain ⟨h1, h3, h4, h5⟩ := hp
      rw [show renderVPiece (VPiece.vchar c) = [c] from rfl, List.singleton_append,
        step_q_other acc _ c h1 h3 h4 h5, ih h2]
      simp
    | vent body =>
      rw [show renderVPiece (VPiece.vent body) = '&' :: (body ++ [';']) from rfl,
        q_entity_run body hp, ih h2]
      simp

/-- Whatever follows a rendered attribute's closing quote — the next
attribute's leading space, `/`, or `>` — is an attribute terminator. -/
theorem after_quote_terminator (attrs2 : List XAttr) (sc : Bool) (rest : List Char) :
    isAttributeTerminator (((attrs2.map renderAttr).flatten ++ closeList sc) ++ rest).head? = true := by
  cases attrs2 with
  | nil => cases sc <;> simp [closeList, isAttributeTerminator]
  | cons a attrs3 =>
    simp [renderAttr, isAttributeTerminator, jsWhitespace]

theorem quoteChar_true : quoteChar true = '"' := rfl

theorem quoteChar_false : quoteChar false = '\'' := rfl

/-! Specialized single-step corollaries used by the tag lemmas. -/

theorem step_attr_name_dq (acc t : List Char) :
    sanitizeLoop ATTR_NAME acc ('"' :: t) =
      sanitizeLoop ATTR_VALUE_DQ (acc ++ ['"']) t := by
  rw [step_attr_name]; simp

theorem step_attr_name_q (acc t : List Char) :
    sanitizeLoop ATTR_NAME acc ('\'' :: t) =
      sanitizeLoop ATTR_VALUE_Q (acc ++ ['\'']) t := by
  rw [step_attr_name]; simp

theorem step_attr_name_gt (acc t : List Char) :
    sanitizeLoop ATTR_NAME acc ('>' :: t) =
      sanitizeLoop TEXT (acc ++ ['>']) t := by
  rw [step_attr_name]; simp

theorem step_attr_name_slash (acc t : List Char) :
    sanitizeLoop ATTR_NAME acc ('/' :: t) =
      sanitizeLoop ATTR_NAME (acc ++ ['/']) t := by
  rw [step_attr_name]; simp

theorem step_attr_name_space (acc t : List Char) :
    sanitizeLoop ATTR_NAME acc (' ' :: t) =
      sanitizeLoop ATTR_NAME (acc ++ [' ']) t := by
  rw [step_attr_name]; simp

theorem step_tag_name_gt (acc t : List Char) :
    sanitizeLoop TAG_NAME acc ('>' :: t) =
      sanitizeLoop TEXT (acc ++ ['>']) t := by
  rw [step_tag_name]
  simp [show jsWhitespace '>' = false from by decide]

theorem step_tag_name_slash (acc t : List Char) :
    sanitizeLoop TAG_NAME acc ('/' :: t) =
      sanitizeLoop TAG_NAME (acc ++ ['/']) t := by
  rw [step_tag_name]
  simp [show jsWhitespace '/' = false from by decide]

theorem step_tag_name_space (acc t : List Char) :
    sanitizeLoop TAG_NAME acc (' ' :: t) =
      sanitizeLoop ATTR_NAME (acc ++ [' ']) t := by
  rw [step_tag_name]
  simp [show jsWhitespace ' ' = true from by decide]

theorem step_dq_quote_close (acc t : List Char)
    (h : isAttributeTerminator t.head? = true) :
    sanitizeLoop ATTR_VALUE_DQ acc ('"' :: t) =
      sanitizeLoop ATTR_NAME (acc ++ ['"']) t := by
  rw [step_dq_quote, h]; simp

theorem step_q_quote_close (acc t : List Char)
    (h : isAttributeTerminator t.head? = true) :
    sanitizeLoop ATTR_VALUE_Q acc ('\'' :: t) =
      sanitizeLoop ATTR_NAME (acc ++ ['\'']) t := by
  rw [step_q_quote, h]; simp

/-- Processing one attribute (after its leading space) from ATTR_NAME:
the attribute text is copied verbatim and the machine is back in
ATTR_NAME, provided the character following the closing quote is a
terminator. -/
theorem attr_tail_run (a : XAttr) (h : wfAttr a) (acc rest : List Char)
    (hterm : isAttributeTerminator rest.head? = true) :
    sanitizeLoop ATTR_NAME acc
      ((a.pre ++ quoteChar a.dq :: ((a.value.map renderVPiece).flatten ++ [quoteChar a.dq])) ++ rest) =
    sanitizeLoop ATTR_NAME
      (acc ++ (a.pre ++ quoteChar a.dq :: ((a.value.map renderVPiece).flatten ++ [quoteChar a.dq]))) rest := by
  obtain ⟨hpre, hval⟩ := h
  cases hdq : a.dq with
  | false =>
    rw [hdq] at hval
    rw [quoteChar_false] at hval ⊢
    rw [List.append_assoc, attrname_copy_run a.pre hpre, List.cons_append,
      step_attr_name_q,
      show ((a.value.map renderVPiece).flatten ++ ['\'']) ++ rest =
        (a.value.map renderVPiece).flatten ++ ('\'' :: rest) from by simp,
      q_value_run a.value hval, step_q_quote_close _ _ hterm]
    simp
  | true =>
    rw [hdq] at hval
    rw [quoteChar_true] at hval ⊢
    rw [List.append_assoc, attrname_copy_run a.pre hpre, List.cons_append,
      step_attr_name_dq,
      show ((a.value.map renderVPiece).flatten ++ ['"']) ++ rest =
        (a.value.map renderVPiece).flatten ++ ('"' :: rest) from by simp,
      dq_value_run a.value hval, step_dq_quote_close _ _ hterm]
    simp

/-- The tag close (`>` or `/>`) leads from TAG_NAME or ATTR_NAME back
to TEXT, copied verbatim. -/
theorem close_run (sc : Bool) (st : XState)
    (hst : st = TAG_NAME ∨ st = ATTR_NAME) (acc rest : List Char) :
    sanitizeLoop st acc (closeList sc ++ rest) =
      sanitizeLoop TEXT (acc ++ closeList sc) rest := by
  cases sc with
  | false =>
    rcases hst with rfl | rfl
    · rw [show closeList false ++ rest = '>' :: rest from rfl, step_tag_name_gt]
      rfl
    · rw [show closeList false ++ rest = '>' :: rest from rfl, step_attr_name_gt]
      rfl
  | true =>
    rcases hst with rfl | rfl
    · rw [show closeList true ++ rest = '/' :: ('>' :: rest) from rfl,
        step_tag_name_slash, step_tag_name_gt]
      simp [closeList]
    · rw [show closeList true ++ rest = '/' :: ('>' :: rest) from rfl,
        step_attr_name_slash, step_attr_name_gt]
      simp [closeList]

/-- All attributes followed by the tag close, starting in TAG_NAME (no
attribute yet) or ATTR_NAME (between attributes). -/
theorem attrs_close_run (attrs : List XAttr) (sc : Bool)
    (h : ∀ a ∈ attrs, wfAttr a) :
    ∀ st, (st = TAG_NAME ∨ st = ATTR_NAME) → ∀ acc rest : List Char,
      sanitizeLoop st acc (((attrs.map renderAttr).flatten ++ closeList sc) ++ rest) =
        sanitizeLoop TEXT (acc ++ ((attrs.map renderAttr).flatten ++ closeList sc)) rest := by
  induction attrs with
  | nil =>
    intro st hst acc rest
    simp only [List.map_nil, List.flatten_nil, List.nil_append]
    exact close_run sc st hst acc rest
  | cons a attrs2 ih =>
    intro st hst acc rest
    have hwa : wfAttr a := h a (List.mem_cons_self _ _)
    have h2 : ∀ b ∈ attrs2, wfAttr b := fun b hb => h b (List.mem_cons_of_mem _ hb)
    have e1 : ((((a :: attrs2).map renderAttr).flatten ++ closeList sc) ++ rest) =
        renderAttr a ++ (((attrs2.map renderAttr).flatten ++ closeList sc) ++ rest) := by
      simp [List.append_assoc]
    rw [e1]
    have hspace : ∀ acc2 : List Char, ∀ T : List Char,
        sanitizeLoop st acc2 (' ' :: T) = sanitizeLoop ATTR_NAME (acc2 ++ [' ']) T := by
      intro acc2 T
      rcases hst with rfl | rfl
      · exact step_tag_name_space acc2 T
      · exact step_attr_name_space acc2 T
    rw [show renderAttr a ++ (((attrs2.map renderAttr).flatten ++ closeList sc) ++ rest) =
        ' ' :: ((a.pre ++ quoteChar a.dq :: ((a.value.map renderVPiece).flatten ++ [quoteChar a.dq])) ++
          (((attrs2.map renderAttr).flatten ++ closeList sc) ++ rest)) from rfl]
    rw [hspace, attr_tail_run a hwa _ _ (after_quote_terminator attrs2 sc rest),
      ih h2 ATTR_NAME (Or.inr rfl)]
    simp [renderAttr, List.append_assoc]

/-- A whole well-formed tag is copied verbatim, ending back in TEXT. -/
theorem tag_run (tg : XTag) (h : wfTag tg) (acc rest : List Char) :
    sanitizeLoop TEXT acc (renderTag tg ++ rest) =
      sanitizeLoop TEXT (acc ++ renderTag tg) rest := by
  obtain ⟨⟨c0, nrest, hname, hstart, hnotbang⟩, hnchars, hattrs⟩ := h
  rw [show renderTag tg ++ rest =
      '<' :: ((tg.name ++ ((tg.attrs.map renderAttr).flatten ++ closeList tg.selfClose)) ++ rest)
    from rfl]
  have hhead : ((tg.name ++ ((tg.attrs.map renderAttr).flatten ++ closeList tg.selfClose)) ++ rest).head? = some c0 := by
    rw [hname]
    rfl
  have hcd : ¬("![CDATA[".toList <+:
      ((tg.name ++ ((tg.attrs.map renderAttr).flatten ++ closeList tg.selfClose)) ++ rest)) := by
    rintro ⟨r, hr⟩
    have hh2 : ((tg.name ++ ((tg.attrs.map renderAttr).flatten ++ closeList tg.selfClose)) ++ rest).head? = some '!' := by
      rw [← hr]
      rfl
    rw [hhead] at hh2
    exact hnotbang (Option.some_injective _ hh2)
  have hcm : ¬("!--".toList <+:
      ((tg.name ++ ((tg.attrs.map renderAttr).flatten ++ closeList tg.selfClose)) ++ rest)) := by
    rintro ⟨r, hr⟩
    have hh2 : ((tg.name ++ ((tg.attrs.map renderAttr).flatten ++ closeList tg.selfClose)) ++ rest).head? = some '!' := by
      rw [← hr]
      rfl
    rw [hhead] at hh2
    exact hnotbang (Option.some_injective _ hh2)
  rw [step_text_tag acc _ c0 hcd hcm hhead hstart]
  rw [hname]
  rw [show ((c0 :: nrest) ++ ((tg.attrs.map renderAttr).flatten ++ closeList tg.selfClose)) ++ rest =
      c0 :: ((nrest ++ ((tg.attrs.map renderAttr).flatten ++ closeList tg.selfClose)) ++ rest)
    from rfl]
  rw [step_tag_open]
  have hc0 : jsWhitespace c0 = false ∧ c0 ≠ '>' :=
    hnchars c0 (by rw [hname]; exact List.mem_cons_self _ _)
  rw [if_neg hc0.2]
  rw [show ((nrest ++ ((tg.attrs.map renderAttr).flatten ++ closeList tg.selfClose)) ++ rest) =
      nrest ++ ((((tg.attrs.map renderAttr).flatten ++ closeList tg.selfClose)) ++ rest)
    from List.append_assoc _ _ _]
  rw [tagname_copy_run nrest
    (fun c hc => hnchars c (by rw [hname]; exact List.mem_cons_of_mem _ hc))]
  rw [attrs_close_run tg.attrs tg.selfClose hattrs TAG_NAME (Or.inl rfl)]
  simp [renderTag, hname, List.append_assoc]

/-- A well-formed document is copied verbatim from the TEXT state. -/
theorem items_run (items : List XItem) (h : ∀ it ∈ items, wfItem it) :
    ∀ acc : List Char,
      sanitizeLoop TEXT acc (renderItems items) = acc ++ renderItems items := by
  induction items with
  | nil => intro acc; simp [renderItems, step_nil]
  | cons it items2 ih =>
    intro acc
    have hit : wfItem it := h it (List.mem_cons_self _ _)
    have h2 : ∀ j ∈ items2, wfItem j := fun j hj => h j (List.mem_cons_of_mem _ hj)
    rw [show renderItems (it :: items2) = renderItem it ++ renderItems items2 from by
      simp [renderItems]]
    cases it with
    | text c =>
      obtain ⟨h1, h3, h4⟩ := hit
      rw [show renderItem (XItem.text c) ++ renderItems items2 = c :: renderItems items2
        from rfl, step_text_other acc _ c h1 h4 h3, ih h2]
      simp
    | ent body =>
      rw [show renderItem (XItem.ent body) = '&' :: (body ++ [';']) from rfl,
        text_entity_run body hit, ih h2]
      simp
    | tag tg =>
      rw [show renderItem (XItem.tag tg) = renderTag tg from rfl, tag_run tg hit, ih h2]
      simp

/-- C5: for any text `t` containing only valid XML-escaped entities and
well-formed tags (rendered from the grammar above), `sanitizeXml t = t`,
and consequently `sanitizeXml (sanitizeXml t) = sanitizeXml t`. -/
theorem c5_identity_on_sanitized (items : List XItem)
    (h : ∀ it ∈ items, wfItem it) :
    sanitizeXml ⟨renderItems items⟩ = ⟨renderItems items⟩ ∧
    sanitizeXml (sanitizeXml ⟨renderItems items⟩) = sanitizeXml ⟨renderItems items⟩ := by
  have h1 : sanitizeXml ⟨renderItems items⟩ = ⟨renderItems items⟩ := by
    unfold sanitizeXml
    rw [show (⟨renderItems items⟩ : String).data = renderItems items from rfl,
      items_run items h []]
    rw [List.nil_append]
  exact ⟨h1, by rw [h1, h1]⟩

/-- C5 witness: the sample document is well-formed, so it is a fixed
point of the sanitizer. -/
theorem c5_identity_on_sanitized_witness :
    sanitizeXml ⟨renderItems sanitizedSample⟩ = ⟨renderItems sanitizedSample⟩ ∧
    sanitizeXml (sanitizeXml ⟨renderItems sanitizedSample⟩) =
      sanitizeXml ⟨renderItems sanitizedSample⟩ :=
  c5_identity_on_sanitized sanitizedSample (by
    intro it hit
    simp only [sanitizedSample, List.mem_cons, List.not_mem_nil, or_false] at hit
    rcases hit with rfl | rfl | rfl | rfl | rfl
    · exact ⟨⟨'t', "ext".toList, rfl, by decide, by decide⟩, by decide, by simp⟩
    · exact ⟨by decide, by decide, by decide⟩
    · exact (by decide : entityBodyValid "lt".toList = true)
    · exact ⟨by decide, by decide, by decide⟩
    · exact ⟨⟨'/', "text".toList, rfl, by decide, by decide⟩, by decide, by simp⟩)

end DrawioSanitizer
